import Mathlib

/-!
# Verification of the domain-blocklist aggregation engine

A shallow embedding of `generate-domains-blocklist.py`: the list parsers
(trusted and untrusted), the glob / suffix redundancy checks, and the
aggregation driver `blocklists_from_config_file`, together with theorems
settling the specification claims.

Modelling conventions:
* Python strings are Lean `String` (a structure over `List Char`); all
  primitive operations (`strip`, `lower`, `splitlines`, `split(".")`,
  `join`) are re-implemented structurally so that they can be reasoned
  about and evaluated by `decide`/`rfl`.
* Python `set` values are represented as duplicate-free `List`s; the list
  order stands for the set's (unspecified) iteration order.  Functions
  that the source only queries through membership are order-insensitive;
  where the source iterates over a set (the time-restricted block, the
  per-source name loop) the list order is the iteration order, and
  determinism claims quantify over permutations of these lists.
* Network / file retrieval (`load_from_url`) is an external collaborator;
  it is abstracted as a function `String → Except String (String × Bool)`
  returning either `str(e)` of the raised exception or the pair
  `(content, trusted)`.
* Each regular expression of the source is implemented as a concrete
  matcher with Python `re` semantics (leftmost match, greedy quantifiers
  with backtracking) specialised to the fixed pattern.
-/

namespace GDB

/-! ## Python string primitives -/

/-- Python whitespace characters recognised by `str.strip` / `\s`
(ASCII subset; all inputs of interest are ASCII). -/
def isPySpace (c : Char) : Bool :=
  c = ' ' || c = '\t' || c = '\n' || c = '\r' || c = '\x0b' || c = '\x0c'

/-- Python `str.strip()`. -/
def pyStrip (s : String) : String :=
  ⟨((s.data.dropWhile isPySpace).reverse.dropWhile isPySpace).reverse⟩

/-- Python `str.lower()` (ASCII). -/
def pyLower (s : String) : String := ⟨s.data.map Char.toLower⟩

/-- Helper for `str.splitlines()`: accumulate the current line, breaking at
`\r\n`, `\r` or `\n`; a trailing line terminator produces no extra line. -/
def splitlinesAux : List Char → List Char → List (List Char)
  | [], acc => if acc.isEmpty then [] else [acc.reverse]
  | '\r' :: '\n' :: rest, acc => acc.reverse :: splitlinesAux rest []
  | '\r' :: rest, acc => acc.reverse :: splitlinesAux rest []
  | '\n' :: rest, acc => acc.reverse :: splitlinesAux rest []
  | c :: rest, acc => splitlinesAux rest (c :: acc)

/-- Python `str.splitlines()`. -/
def pySplitlines (s : String) : List String :=
  (splitlinesAux s.data []).map fun l => ⟨l⟩

/-- Python `name.split(".")`. -/
def splitDot : List Char → List (List Char)
  | [] => [[]]
  | c :: rest =>
    if c = '.' then [] :: splitDot rest
    else
      match splitDot rest with
      | h :: t => (c :: h) :: t
      | [] => [[c]]

/-- Python `".".join(parts)`. -/
def joinDot : List (List Char) → List Char
  | [] => []
  | [p] => p
  | p :: ps => p ++ '.' :: joinDot ps

/-- Lexicographic comparison of character lists: `a ≤ b` in the order
Python uses to compare the `name_cmp` sort keys. -/
def charListLe : List Char → List Char → Bool
  | [], _ => true
  | _ :: _, [] => false
  | a :: as, b :: bs => if a = b then charListLe as bs else decide (a < b)

/-! ## Python set / dict operations (lists as iteration orders) -/

/-- `set.add`: append the element unless already present. -/
def setAdd (l : List String) (x : String) : List String :=
  if l.contains x then l else l ++ [x]

/-- `s |= t`: fold `set.add` over the right-hand set. -/
def setUnion (a b : List String) : List String := b.foldl setAdd a

/-- `d[k] = v` on an insertion-ordered dict. -/
def dictInsert {β : Type} (d : List (String × β)) (k : String) (v : β) :
    List (String × β) :=
  match d with
  | [] => [(k, v)]
  | (k', v') :: rest =>
    if k' = k then (k', v) :: rest else (k', v') :: dictInsert rest k v

/-- `d.get(k)` / `k in d` lookup on an insertion-ordered dict. -/
def dictGet {β : Type} (d : List (String × β)) (k : String) : Option β :=
  match d with
  | [] => none
  | (k', v) :: rest => if k' = k then some v else dictGet rest k

/-- `needle` is a prefix of `hay` (character-wise). -/
def listPrefixB : List Char → List Char → Bool
  | [], _ => true
  | _ :: _, [] => false
  | a :: as, b :: bs => a = b && listPrefixB as bs

/-- Python `needle in hay` substring containment. -/
def hasSub (hay needle : List Char) : Bool :=
  listPrefixB needle hay ||
    match hay with
    | [] => false
    | _ :: t => hasSub t needle

/-! ## Character classes of the source's regular expressions -/

def isLowerC (c : Char) : Bool := 'a' ≤ c && c ≤ 'z'
def isDigitC (c : Char) : Bool := '0' ≤ c && c ≤ '9'
/-- `[a-z0-9]`. -/
def isAlnumC (c : Char) : Bool := isLowerC c || isDigitC c
/-- `[a-z0-9.-]`. -/
def isDomC (c : Char) : Bool := isAlnumC c || c = '.' || c = '-'
/-- `[*a-z0-9.-]`, the class of `rx_trusted`'s first group. -/
def isTrustC (c : Char) : Bool := c = '*' || isDomC c
/-- The class inside `rx_b`: digits, colon, space, slash, hyphen. -/
def isBC (c : Char) : Bool := isDigitC c || c = ':' || c = ' ' || c = '/' || c = '-'

/-- Try `f` on each element, returning the first `some` (backtracking order). -/
def firstSome {α β : Type} (f : α → Option β) : List α → Option β
  | [] => none
  | a :: as =>
    match f a with
    | some b => some b
    | none => firstSome f as

/-- Match the domain sub-pattern `([a-z0-9][a-z0-9.-]*[.][a-z]{2,})` at the
start of `cs`, greedily with backtracking, succeeding when `cont` accepts
the remainder; returns the captured group. -/
def matchDomainAt (cs : List Char) (cont : List Char → Bool) :
    Option (List Char) :=
  match cs with
  | [] => none
  | c :: rest =>
    if isAlnumC c then
      let m := (rest.takeWhile isDomC).length
      firstSome (fun i =>
        match rest.drop i with
        | '.' :: rest3 =>
          let lm := (rest3.takeWhile isLowerC).length
          firstSome (fun j =>
            if cont (rest3.drop j) then
              some (c :: rest.take i ++ '.' :: rest3.take j)
            else none)
            ((List.range' 2 (lm - 1)).reverse)
        | _ => none)
        ((List.range (m + 1)).reverse)
    else none

/-! ## The source's regular expressions

Each `rxU`, `rxL`, … implements the matcher-plus-group-1 extraction of the
correspondingly named compiled pattern in `parse_list`. -/

/-- Python `str.startswith` (used where the source calls `startswith` and
for the `^#` regex test); Lean's own `String.startsWith` is bypassed so
that everything reduces inside the kernel. -/
def pyStartswith (s pre : String) : Bool := listPrefixB pre.data s.data

/-- `rx_comment = ^(#|$)` tested with `.match`. -/
def rxComment (line : String) : Bool := pyStartswith line "#" || line = ""

/-- One position of `rx_inline_comment = \s*#\s*[a-z0-9-].*$`: does the
pattern match starting exactly here? -/
def inlineHere (cs : List Char) : Bool :=
  match cs.dropWhile isPySpace with
  | '#' :: r =>
    match r.dropWhile isPySpace with
    | c :: _ => isLowerC c || isDigitC c || c = '-'
    | [] => false
  | _ => false

/-- `rx_inline_comment.sub("", line)`: delete from the leftmost match
position (the match always extends to the end of the line) onward. -/
def stripInlineComment : List Char → List Char
  | [] => []
  | c :: rest => if inlineHere (c :: rest) then [] else c :: stripInlineComment rest

/-- `rx_trusted = ^([*a-z0-9.-]+)\s*(@\S+)?$` tested with `.match`;
returns (group 1, group 2). -/
def rxTrusted (cs : List Char) : Option (List Char × Option (List Char)) :=
  let name := cs.takeWhile isTrustC
  if name.isEmpty then none
  else
    match (cs.drop name.length).dropWhile isPySpace with
    | [] => some (name, none)
    | '@' :: tl =>
      if !tl.isEmpty && tl.all (fun c => !isPySpace c) then
        some (name, some ('@' :: tl))
      else none
    | _ => none

/-- `rx_timed = .+\s*@\S+$` tested with `.match`: some `@` at index ≥ 1 is
followed by a non-empty all-non-whitespace suffix. -/
def rxTimed (line : String) : Bool :=
  let cs := line.data
  (List.range cs.length).any fun i =>
    decide (1 ≤ i) && decide (i + 1 < cs.length) && (cs.getD i ' ' = '@') &&
      ((cs.drop (i + 1)).all fun c => !isPySpace c)

/-- `rx_u = ^@*\|\|([a-z0-9][a-z0-9.-]*[.][a-z]{2,})\^?(\$(popup|third-party))?$`. -/
def rxU (cs : List Char) : Option (List Char) :=
  match cs.dropWhile (· = '@') with
  | '|' :: '|' :: rest =>
    matchDomainAt rest fun t =>
      let t := match t with
        | '^' :: t' => t'
        | _ => t
      t = [] || t = "$popup".data || t = "$third-party".data
  | _ => none

/-- `rx_l = ^([a-z0-9][a-z0-9.-]*[.][a-z]{2,})$`. -/
def rxL (cs : List Char) : Option (List Char) :=
  matchDomainAt cs (· = [])

/-- `rx_lw = ^[*][.]([a-z0-9][a-z0-9.-]*[.][a-z]{2,})$`. -/
def rxLw (cs : List Char) : Option (List Char) :=
  match cs with
  | '*' :: '.' :: rest => matchDomainAt rest (· = [])
  | _ => none

/-- `[0-9]{1,3}` followed by `cont`, trying 3, 2, 1 digits (greedy). -/
def digits13 {α : Type} (cs : List Char) (cont : List Char → Option α) : Option α :=
  firstSome (fun n =>
    if (cs.take n).length = n && (cs.take n).all isDigitC then cont (cs.drop n)
    else none) [3, 2, 1]

/-- `rx_h = ^[0-9]{1,3}[.][0-9]{1,3}[.][0-9]{1,3}[.][0-9]{1,3}\s+(D)$`
(hosts-file line). -/
def rxH (cs : List Char) : Option (List Char) :=
  digits13 cs fun r1 =>
    match r1 with
    | '.' :: r1 =>
      digits13 r1 fun r2 =>
        match r2 with
        | '.' :: r2 =>
          digits13 r2 fun r3 =>
            match r3 with
            | '.' :: r3 =>
              digits13 r3 fun r4 =>
                let k := (r4.takeWhile isPySpace).length
                if k ≠ 0 then matchDomainAt (r4.drop k) (· = []) else none
            | _ => none
        | _ => none
    | _ => none

/-- `rx_mdl = ^"[^"]+","(D)",`. -/
def rxMdl (cs : List Char) : Option (List Char) :=
  match cs with
  | '"' :: rest =>
    let q := rest.takeWhile (· ≠ '"')
    if q.isEmpty then none
    else
      match rest.drop q.length with
      | '"' :: ',' :: '"' :: r =>
        matchDomainAt r fun t => t.take 2 = ['"', ',']
      | _ => none
  | _ => none

/-- Continuation of `rx_b` after the domain: a comma, one or more
arbitrary characters, a comma, one or more class characters (digits,
colon, space, slash, hyphen), a comma. -/
def contB (t : List Char) : Bool :=
  match t with
  | ',' :: u =>
    (List.range u.length).any fun i =>
      decide (1 ≤ i) && (u.getD i ' ' = ',') &&
        ((List.range u.length).any fun j =>
          decide (i + 1 < j) && (u.getD j ' ' = ',') &&
            ((u.drop (i + 1)).take (j - i - 1)).all isBC)
  | _ => false

/-- `rx_b`: a domain, then `contB` (the CSV-like date-range line). -/
def rxB (cs : List Char) : Option (List Char) :=
  matchDomainAt cs contB

/-- `rx_dq = ^address=/(D)/.`. -/
def rxDq (cs : List Char) : Option (List Char) :=
  if cs.take 9 = "address=/".data then
    matchDomainAt (cs.drop 9) fun t =>
      match t with
      | '/' :: _ :: _ => true
      | _ => false
  else none

def isPipeAt (c : Char) : Bool := c = '|' || c = '@'

/-- `rx_abp = ^[|@]?[|@]?(D)[#@]?[#@]?.*$`: after skipping up to two
leading `|`/`@` characters the domain must match; the tail pattern
`[#@]?[#@]?.*$` accepts any remainder. -/
def rxAbp (cs : List Char) : Option (List Char) :=
  let cs1 := match cs with
    | a :: b :: r =>
      if isPipeAt a then (if isPipeAt b then r else b :: r) else cs
    | a :: r => if isPipeAt a then r else cs
    | [] => cs
  matchDomainAt cs1 fun _ => true

/-- `rx_wildcard = ^[*]?(D)[*]?$`. -/
def rxWildcard (cs : List Char) : Option (List Char) :=
  let cs1 := match cs with
    | '*' :: r => r
    | _ => cs
  matchDomainAt cs1 fun t => t = [] || t = ['*']

/-- `rx_domain = (D)` with `.search`: leftmost occurrence anywhere. -/
def rxDomainSearch : List Char → Option (List Char)
  | [] => none
  | c :: rest =>
    match matchDomainAt (c :: rest) fun _ => true with
    | some r => some r
    | none => rxDomainSearch rest

/-! ## `is_glob`, `fnmatch`, `covered_by_glob`, `has_suffix`, `name_cmp` -/

/-- `is_glob(pattern)`: the character scan of the source; the subsequent
`fnmatch.fnmatch("example", pattern)` validation inside `try` never raises
in Python 3 (`fnmatch.translate` always yields a valid regex), so the scan
result is the return value. -/
def is_glob (pattern : String) : Bool :=
  let cs := pattern.data
  let n := cs.length
  (List.range n).any fun i =>
    let c := cs.getD i ' '
    c = '?' || c = '[' ||
      (c = '*' && decide (i ≠ 0) &&
        (decide (i < n - 1) || cs.getD (i - 1) ' ' = '.'))

/-- Split a `[…]` glob character class body at its closing `]`. -/
def findClose : List Char → Option (List Char × List Char)
  | [] => none
  | ']' :: r => some ([], r)
  | c :: r =>
    match findClose r with
    | some (a, b) => some (c :: a, b)
    | none => none

/-- Parse the body after a `[`: optional `!` negation, a first `]` is a
literal member, then everything up to the closing `]`. -/
def parseClass (cs : List Char) : Option (Bool × List Char × List Char) :=
  let p := match cs with
    | '!' :: r => (true, r)
    | _ => (false, cs)
  match p.2 with
  | ']' :: r =>
    match findClose r with
    | some (a, b) => some (p.1, ']' :: a, b)
    | none => none
  | cs1 =>
    match findClose cs1 with
    | some (a, b) => some (p.1, a, b)
    | none => none

/-- Membership of a character in a glob class body (`a-b` ranges and
literals). -/
def classMatch : List Char → Char → Bool
  | a :: '-' :: b :: rest, c => (a ≤ c && c ≤ b) || classMatch rest c
  | a :: rest, c => (a = c) || classMatch rest c
  | [], _ => false

/-- Shell-style glob matching (`fnmatch.fnmatch` on POSIX, where
`normcase` is the identity): `*`, `?`, `[seq]`, `[!seq]`, an unterminated
`[` is a literal.  The fuel argument bounds the recursion depth; every
step shortens `pattern ++ text`, so `|pattern| + |text| + 1` is enough. -/
def globMatchFuel : Nat → List Char → List Char → Bool
  | 0, _, _ => false
  | _ + 1, [], t => t.isEmpty
  | f + 1, '*' :: ps, t =>
    globMatchFuel f ps t ||
      match t with
      | [] => false
      | _ :: ts => globMatchFuel f ('*' :: ps) ts
  | f + 1, '?' :: ps, t =>
    match t with
    | _ :: ts => globMatchFuel f ps ts
    | [] => false
  | f + 1, '[' :: ps, t =>
    match parseClass ps with
    | some (neg, items, rest) =>
      match t with
      | c :: ts => (neg != classMatch items c) && globMatchFuel f rest ts
      | [] => false
    | none =>
      match t with
      | '[' :: ts => globMatchFuel f ps ts
      | _ => false
  | f + 1, p :: ps, t =>
    match t with
    | c :: ts => (p = c) && globMatchFuel f ps ts
    | [] => false

/-- `fnmatch.fnmatch(name, pat)`. -/
def fnmatchB (name pat : String) : Bool :=
  globMatchFuel (pat.data.length + name.data.length + 1) pat.data name.data

/-- `covered_by_glob(globs, name)`; the `try…except: pass` around
`fnmatch.fnmatch` is dead (it never raises), leaving the plain scan. -/
def covered_by_glob (globs : List String) (name : String) : Bool :=
  if globs.contains name then false
  else globs.any fun g => fnmatchB name g

/-- The `while parts:` loop of `has_suffix`: check each join of
`parts[1:], parts[2:], …, []` for membership. -/
def hasSuffixAux (names : List String) : List (List Char) → Bool
  | [] => false
  | _ :: parts => names.contains ⟨joinDot parts⟩ || hasSuffixAux names parts

/-- `has_suffix(names, name)`. -/
def has_suffix (names : List String) (name : String) : Bool :=
  hasSuffixAux names (splitDot name.data)

/-- `name_cmp(name)`: reversed dotted label sequence, the sort key. -/
def name_cmp (name : String) : String :=
  ⟨joinDot (splitDot name.data).reverse⟩

/-- The Boolean comparator `list_names.sort(key=name_cmp)` sorts by:
compare the `name_cmp` keys lexicographically. -/
def keyLe (a b : String) : Bool := charListLe (name_cmp a).data (name_cmp b).data

/-- The comparator as a decidable relation. -/
def keyLeP (a b : String) : Prop := keyLe a b = true

instance : DecidableRel keyLeP := fun a b => instDecidableEqBool (keyLe a b) true

/-- `list_names.sort(key=name_cmp)`: Python's sort is stable, and the
`name_cmp` key is injective (proved below), so ties occur only between
equal elements and every sort with this comparator returns the same
list; a structurally recursive stable insertion sort realises it. -/
def sortNames (l : List String) : List String :=
  l.insertionSort keyLeP

/-! ## The list parsers -/

/-- The three accumulators returned by `parse_list` / `parse_trusted_list`:
Python sets/dicts, represented as insertion-ordered duplicate-free lists. -/
structure ParseResult where
  names : List String
  time_restrictions : List (String × String)
  globs : List String
deriving Repr, DecidableEq

/-- One loop step of `parse_trusted_list`. -/
def trustedStep (acc : ParseResult) (rawline : String) : ParseResult :=
  let line := pyLower (pyStrip rawline)
  if rxComment line then acc
  else
    let line := pyStrip ⟨stripInlineComment line.data⟩
    if is_glob line && !rxTimed line then
      { acc with globs := setAdd acc.globs line, names := setAdd acc.names line }
    else
      match rxTrusted line.data with
      | none => acc
      | some (nm, tr) =>
        let acc := { acc with names := setAdd acc.names ⟨nm⟩ }
        match tr with
        | some t =>
          { acc with time_restrictions := dictInsert acc.time_restrictions ⟨nm⟩ ⟨t⟩ }
        | none => acc

/-- `parse_trusted_list(content)`. -/
def parse_trusted_list (content : String) : ParseResult :=
  (pySplitlines content).foldl trustedStep ⟨[], [], []⟩

/-- The priority-ordered matcher cascade `rx_set` of `parse_list`. -/
def rxSet : List (List Char → Option (List Char)) :=
  [rxU, rxL, rxLw, rxH, rxMdl, rxB, rxDq, rxAbp, rxWildcard]

/-- One loop step of the untrusted branch of `parse_list` (the
statistics written to `log_info` are not part of any returned value or of
the artifact and are omitted). -/
def untrustedStep (acc : ParseResult) (rawline : String) : ParseResult :=
  let line := pyLower (pyStrip rawline)
  if rxComment line || line = "" then acc
  else
    let line := pyStrip ⟨stripInlineComment line.data⟩
    if hasSub line.data "format:".data then acc
    else
      match firstSome (fun rx => rx line.data) rxSet with
      | some nm =>
        if !nm.isEmpty && decide (nm.length > 4) then
          { acc with names := setAdd acc.names ⟨nm⟩ }
        else acc
      | none =>
        match rxDomainSearch line.data with
        | some nm =>
          if !nm.isEmpty && decide (nm.length > 4) then
            { acc with names := setAdd acc.names ⟨nm⟩ }
          else acc
        | none => acc

/-- `parse_list(content, trusted)`. -/
def parse_list (content : String) (trusted : Bool) : ParseResult :=
  if trusted then parse_trusted_list content
  else (pySplitlines content).foldl untrustedStep ⟨[], [], []⟩

/-! ## The aggregation driver `blocklists_from_config_file`

Retrieval (`load_from_url`) is abstracted as
`fetch : String → Except String (String × Bool)`, returning either the
exception text or `(content, trusted)` where `trusted` is true exactly
for `file:` URLs. -/

/-- `print_restricted_name(output_fd, name, time_restrictions)`: the text
written to `output_fd` for one time-restricted name. -/
def print_restricted_name (name : String)
    (time_restrictions : List (String × String)) : String :=
  match dictGet time_restrictions name with
  | some t => name ++ "\t" ++ t ++ "\n"
  | none =>
    "# ignored: [" ++ name ++ "] was in the time-restricted list, " ++
      "but without a time restriction label" ++ "\n"

/-- Concatenation of a list of written chunks. -/
def strJoin : List String → String
  | [] => ""
  | s :: rest => s ++ strJoin rest

/-- The time-based block written to `output_fd` (header plus one line per
name, in the set's iteration order), empty when there are no names. -/
def timeBlockOutput (tnames : List String)
    (time_restrictions : List (String × String)) : String :=
  if tnames.isEmpty then ""
  else
    "########## Time-based blocklist ##########\n\n" ++
      strJoin (tnames.map fun n => print_restricted_name n time_restrictions)

/-- The mutable per-source state of the `for name in names` loop. -/
structure EngineState where
  unique_names : List String
  list_names : List String
  ignored : Nat
  glob_ignored : Nat
  allowed : Nat
deriving Repr, DecidableEq

/-- One iteration of the redundancy-engine loop over a candidate name. -/
def engineStep (all_globs all_names allowed_names : List String)
    (st : EngineState) (name : String) : EngineState :=
  if covered_by_glob all_globs name then
    { st with glob_ignored := st.glob_ignored + 1 }
  else if has_suffix all_names name || st.unique_names.contains name then
    { st with ignored := st.ignored + 1 }
  else if has_suffix allowed_names name || allowed_names.contains name then
    { st with allowed := st.allowed + 1 }
  else
    { st with list_names := st.list_names ++ [name],
              unique_names := setAdd st.unique_names name }

/-- Process one source's parsed names (in iteration order) against the
global state, starting from the carried `unique_names`. -/
def processSource (all_globs all_names allowed_names : List String)
    (unique_names : List String) (names : List String) : EngineState :=
  names.foldl (engineStep all_globs all_names allowed_names)
    ⟨unique_names, [], 0, 0, 0⟩

/-- Per-source outcome: the accepted names (in acceptance order, before
sorting) and the three rejection counters. -/
structure SectionResult where
  url : String
  list_names : List String
  ignored : Nat
  glob_ignored : Nat
  allowed : Nat
deriving Repr, DecidableEq

/-- The text of one output section: header, counter comments, a blank
line when any counter is non-zero, then the accepted names sorted by
`name_cmp`. -/
def renderSection (s : SectionResult) : String :=
  "\n\n########## Blocklist from " ++ s.url ++ " ##########\n\n" ++
    (if s.ignored ≠ 0 then
      "# Ignored duplicates: " ++ toString s.ignored ++ "\n" else "") ++
    (if s.glob_ignored ≠ 0 then
      "# Ignored due to overlapping local patterns: " ++
        toString s.glob_ignored ++ "\n" else "") ++
    (if s.allowed ≠ 0 then
      "# Ignored entries due to the allowlist: " ++
        toString s.allowed ++ "\n" else "") ++
    (if s.ignored ≠ 0 || s.glob_ignored ≠ 0 || s.allowed ≠ 0 then "\n" else "") ++
    strJoin ((sortNames s.list_names).map fun n => n ++ "\n")

/-- `for url, names in blocklists.items()`: run the engine per source in
dict (= insertion) order, threading `unique_names` across sources;
returns the section results and the final `unique_names`. -/
def processBlocklists (all_globs all_names allowed_names : List String) :
    List (String × List String) → List String →
    List SectionResult × List String
  | [], u => ([], u)
  | p :: rest, u =>
    let st := processSource all_globs all_names allowed_names u p.2
    let r := processBlocklists all_globs all_names allowed_names rest
      st.unique_names
    (⟨p.1, st.list_names, st.ignored, st.glob_ignored, st.allowed⟩ :: r.1, r.2)

/-- Concatenated text of all per-source sections. -/
def sectionsOutput (secs : List SectionResult) : String :=
  strJoin (secs.map renderSection)

/-- The config-loading loop state: the `blocklists` dict, the running
`all_names` and `all_globs` unions, and the `log_err` stream. -/
structure LoadState where
  blocklists : List (String × List String)
  all_names : List String
  all_globs : List String
  errLog : String
deriving Repr, DecidableEq

/-- One line of the config-loading loop.  On a retrieval failure the
exception text is logged and — whatever the flag — the loop continues
with the next URL (the `if not ignore_retrieval_failure` branch only adds
a log line before its `continue`). -/
def loadStep (fetch : String → Except String (String × Bool))
    (ignore_retrieval_failure : Bool) (st : LoadState) (rawline : String) :
    LoadState :=
  let line := pyStrip rawline
  if pyStartswith line "#" || line = "" then st
  else
    match fetch line with
    | .ok (content, trusted) =>
      let pr := parse_list content trusted
      if !pr.names.isEmpty then
        { st with blocklists := dictInsert st.blocklists line pr.names,
                  all_names := setUnion st.all_names pr.names,
                  all_globs := setUnion st.all_globs pr.globs }
      else st
    | .error e =>
      let log := st.errLog ++ e
      let log := if !ignore_retrieval_failure then
          log ++ "\nSkipping URL due to error: " ++ line ++ "\n"
        else log
      { st with errLog := log }

/-- The `with open(file) as fd: for line in fd:` loading loop. -/
def loadPhase (configLines : List String)
    (fetch : String → Except String (String × Bool))
    (ignore_retrieval_failure : Bool) : LoadState :=
  configLines.foldl (loadStep fetch ignore_retrieval_failure) ⟨[], [], [], ""⟩

/-- `re.match(r"^[a-z0-9]+:", url)`. -/
def hasScheme (url : String) : Bool :=
  let run := url.data.takeWhile isAlnumC
  !run.isEmpty && url.data.getD run.length ' ' = ':'

/-- The `file:` prefixing applied to the time-restricted and allow-list
arguments. -/
def normalizeFileUrl (u : String) : String :=
  if u ≠ "" && !hasScheme u then "file:" ++ u else u

/-- `allowlist_from_url(url)`: empty set for an empty URL, otherwise the
names of the fetched list (globs and time restrictions discarded). -/
def allowlist_from_url (fetch : String → Except String (String × Bool))
    (url : String) : Except String (List String) :=
  if url = "" then .ok []
  else
    match fetch url with
    | .ok (content, trusted) => .ok (parse_list content trusted).names
    | .error e => .error e

/-- Observable outcome of a run: the bytes written to `output_fd` (the
generated artifact), the bytes written to `log_err` (stderr), whether the
run aborted by an uncaught exception before producing output, and — as
exposed state of the driver — the per-source results, the final allowed
set and the time-restricted names. -/
structure RunResult where
  output : String
  errLog : String
  aborted : Bool
  sections : List SectionResult
  allowed_names : List String
  time_names : List String
  time_restrictions : List (String × String)
deriving Repr, DecidableEq

/-- `blocklists_from_config_file(file, allowlist, time_restricted_url,
ignore_retrieval_failure, output_file)`.  `configContent = none` models a
missing/unreadable config file: `open(file)` raises an uncaught exception
and the run aborts with nothing written.  After that point every failure
is caught inside the function, so the run always completes. -/
def blocklists_from_config_file (configContent : Option String)
    (fetch : String → Except String (String × Bool))
    (allowlist time_restricted_url : String)
    (ignore_retrieval_failure : Bool) : RunResult :=
  match configContent with
  | none => ⟨"", "", true, [], [], [], []⟩
  | some cfg =>
    let ls := loadPhase (pySplitlines cfg) fetch ignore_retrieval_failure
    let tURL := normalizeFileUrl time_restricted_url
    let tRes :=
      if tURL = "" then (([] : List String), ([] : List (String × String)), "")
      else
        match fetch tURL with
        | .ok (content, _trusted) =>
          let pr := parse_trusted_list content
          (pr.names, pr.time_restrictions, "")
        | .error e =>
          ([], [], "Error processing time-restricted list: " ++ e ++ "\n")
    let aURL := normalizeFileUrl allowlist
    let aRes :=
      match allowlist_from_url fetch aURL with
      | .ok ns => (ns, "")
      | .error e => (([] : List String), "Error processing allowlist: " ++ e ++ "\n")
    let allowed_names := setUnion (setUnion [] tRes.1) aRes.1
    let secs := (processBlocklists ls.all_globs ls.all_names allowed_names
      ls.blocklists []).1
    { output := timeBlockOutput tRes.1 tRes.2.1 ++ sectionsOutput secs,
      errLog := ls.errLog ++ tRes.2.2 ++ aRes.2,
      aborted := false,
      sections := secs,
      allowed_names := allowed_names,
      time_names := tRes.1,
      time_restrictions := tRes.2.1 }

/-- The output-producing tail of the run as a function of the parsed data,
with every Python set passed as an explicit iteration-order list: used to
state determinism claims as invariance under permutations of these lists. -/
def runOutput (blocklists : List (String × List String))
    (all_globs all_names : List String) (tnames : List String)
    (time_restrictions : List (String × String)) (anames : List String) :
    String :=
  let allowed_names := setUnion (setUnion [] tnames) anames
  timeBlockOutput tnames time_restrictions ++
    sectionsOutput (processBlocklists all_globs all_names allowed_names
      blocklists []).1

/-! ## Lemmas: the set model -/

lemma contains_iff (l : List String) (x : String) : l.contains x = true ↔ x ∈ l :=
  List.elem_iff

lemma contains_congr {l₁ l₂ : List String} (h : ∀ x, x ∈ l₁ ↔ x ∈ l₂)
    (x : String) : l₁.contains x = l₂.contains x := by
  rw [Bool.eq_iff_iff, contains_iff, contains_iff]; exact h x

lemma contains_eq_of_perm {l₁ l₂ : List String} (h : l₁.Perm l₂) (x : String) :
    l₁.contains x = l₂.contains x :=
  contains_congr (fun y => h.mem_iff) x

lemma mem_setAdd {l : List String} {x y : String} :
    y ∈ setAdd l x ↔ y ∈ l ∨ y = x := by
  unfold setAdd
  split
  · next h =>
    constructor
    · exact Or.inl
    · rintro (h' | rfl)
      · exact h'
      · exact (contains_iff _ _).1 h
  · simp [List.mem_append]

lemma contains_setAdd (l : List String) (x y : String) :
    (setAdd l x).contains y = (l.contains y || decide (y = x)) := by
  rw [Bool.eq_iff_iff]
  simp [contains_iff, mem_setAdd]

lemma mem_setUnion {a b : List String} {y : String} :
    y ∈ setUnion a b ↔ y ∈ a ∨ y ∈ b := by
  induction b generalizing a with
  | nil => simp [setUnion]
  | cons x t ih =>
    have : setUnion a (x :: t) = setUnion (setAdd a x) t := rfl
    rw [this, ih, mem_setAdd, List.mem_cons]
    tauto

lemma setAdd_nodup {l : List String} (h : l.Nodup) (x : String) :
    (setAdd l x).Nodup := by
  unfold setAdd
  split
  · exact h
  · next hc =>
    refine List.Nodup.append h (List.nodup_singleton x) ?_
    intro y hy hy'
    rw [List.mem_singleton] at hy'
    subst hy'
    exact hc ((contains_iff _ _).2 hy)

lemma setUnion_nodup {a : List String} (h : a.Nodup) (b : List String) :
    (setUnion a b).Nodup := by
  induction b generalizing a with
  | nil => exact h
  | cons x t ih => exact ih (setAdd_nodup h x)

lemma mem_dictInsert {β : Type} {d : List (String × β)} {k : String} {v : β}
    {q : String × β} (h : q ∈ dictInsert d k v) : q ∈ d ∨ q = (k, v) := by
  induction d with
  | nil => simpa [dictInsert] using h
  | cons p rest ih =>
    unfold dictInsert at h
    split at h
    · rcases List.mem_cons.1 h with h' | h'
      · next he => right; rw [h', he]
      · exact Or.inl (List.mem_cons.2 (Or.inr h'))
    · rcases List.mem_cons.1 h with h' | h'
      · exact Or.inl (List.mem_cons.2 (Or.inl h'))
      · rcases ih h' with h'' | h''
        · exact Or.inl (List.mem_cons.2 (Or.inr h''))
        · exact Or.inr h''

/-! ## Lemmas: `split(".")` / `".".join` round trips, `name_cmp` injectivity -/

lemma splitDot_ne_nil : ∀ cs : List Char, splitDot cs ≠ []
  | [] => by simp [splitDot]
  | c :: rest => by
    simp only [splitDot]
    split
    · simp
    · cases h : splitDot rest with
      | nil => simp
      | cons a t => simp [h]

lemma joinDot_cons_cons (p q : List Char) (ps : List (List Char)) :
    joinDot (p :: q :: ps) = p ++ '.' :: joinDot (q :: ps) := rfl

lemma joinDot_splitDot : ∀ cs : List Char, joinDot (splitDot cs) = cs
  | [] => rfl
  | c :: rest => by
    have ih := joinDot_splitDot rest
    simp only [splitDot]
    by_cases hc : c = '.'
    · subst hc
      rw [if_pos rfl]
      cases h : splitDot rest with
      | nil => exact absurd h (splitDot_ne_nil rest)
      | cons a t =>
        rw [h] at ih
        rw [joinDot_cons_cons, ih]
        rfl
    · rw [if_neg hc]
      cases h : splitDot rest with
      | nil => exact absurd h (splitDot_ne_nil rest)
      | cons a t =>
        rw [h] at ih
        cases t with
        | nil =>
          simp only [joinDot] at ih ⊢
          rw [ih]
        | cons b t' =>
          rw [joinDot_cons_cons] at ih
          rw [joinDot_cons_cons, List.cons_append, ih]

lemma splitDot_no_dot : ∀ (cs : List Char), ∀ p ∈ splitDot cs, '.' ∉ p
  | [] => by simp [splitDot]
  | c :: rest => by
    have ih := splitDot_no_dot rest
    simp only [splitDot]
    by_cases hc : c = '.'
    · subst hc
      rw [if_pos rfl]
      intro p hp
      rcases List.mem_cons.1 hp with h | h
      · simp [h]
      · exact ih p h
    · rw [if_neg hc]
      cases h : splitDot rest with
      | nil => exact absurd h (splitDot_ne_nil rest)
      | cons a t =>
        intro p hp
        rcases List.mem_cons.1 hp with h' | h'
        · subst h'
          intro hd
          rcases List.mem_cons.1 hd with h'' | h''
          · exact hc h''.symm
          · exact ih a (h ▸ List.mem_cons_self a t) h''
        · exact ih p (h ▸ List.mem_cons.2 (Or.inr h'))

lemma dotfree_append_inj :
    ∀ (x y u v : List Char), '.' ∉ x → '.' ∉ y →
      x ++ '.' :: u = y ++ '.' :: v → x = y ∧ u = v
  | [], [], u, v, _, _, h => by simpa using h
  | [], c :: y', u, v, _, hy, h => by
    simp only [List.nil_append, List.cons_append, List.cons.injEq] at h
    exact absurd (List.mem_cons.2 (Or.inl h.1)) hy
  | a :: x', [], u, v, hx, _, h => by
    simp only [List.nil_append, List.cons_append, List.cons.injEq] at h
    exact absurd (List.mem_cons.2 (Or.inl h.1.symm)) hx
  | a :: x', b :: y', u, v, hx, hy, h => by
    simp only [List.cons_append, List.cons.injEq] at h
    have := dotfree_append_inj x' y' u v
      (fun hm => hx (List.mem_cons.2 (Or.inr hm)))
      (fun hm => hy (List.mem_cons.2 (Or.inr hm))) h.2
    exact ⟨by rw [h.1, this.1], this.2⟩

lemma joinDot_inj_aux :
    ∀ (l₁ l₂ : List (List Char)), l₁ ≠ [] → l₂ ≠ [] →
      (∀ p ∈ l₁, '.' ∉ p) → (∀ p ∈ l₂, '.' ∉ p) →
      joinDot l₁ = joinDot l₂ → l₁ = l₂
  | [], _, h, _, _, _, _ => absurd rfl h
  | _ :: _, [], _, h, _, _, _ => absurd rfl h
  | [x], [y], _, _, _, _, h => by simpa [joinDot] using h
  | [x], y :: y₂ :: ys, _, _, h₁, h₂, h => by
    simp only [joinDot, joinDot_cons_cons] at h
    have hdot : '.' ∈ x := h ▸ List.mem_append.2 (Or.inr (List.mem_cons_self _ _))
    exact absurd hdot (h₁ x (List.mem_cons_self _ _))
  | x :: x₂ :: xs, [y], _, _, h₁, h₂, h => by
    simp only [joinDot, joinDot_cons_cons] at h
    have hdot : '.' ∈ y := h ▸ List.mem_append.2 (Or.inr (List.mem_cons_self _ _))
    exact absurd hdot (h₂ y (List.mem_cons_self _ _))
  | x :: x₂ :: xs, y :: y₂ :: ys, _, _, h₁, h₂, h => by
    rw [joinDot_cons_cons, joinDot_cons_cons] at h
    have hsplit := dotfree_append_inj x y _ _
      (h₁ x (List.mem_cons_self _ _)) (h₂ y (List.mem_cons_self _ _)) h
    have htail := joinDot_inj_aux (x₂ :: xs) (y₂ :: ys) (by simp) (by simp)
      (fun p hp => h₁ p (List.mem_cons.2 (Or.inr hp)))
      (fun p hp => h₂ p (List.mem_cons.2 (Or.inr hp))) hsplit.2
    rw [hsplit.1, htail]

lemma name_cmp_inj {a b : String} (h : name_cmp a = name_cmp b) : a = b := by
  have hd : joinDot (splitDot a.data).reverse = joinDot (splitDot b.data).reverse := by
    have := congrArg String.data h
    simpa [name_cmp] using this
  have hrev : (splitDot a.data).reverse = (splitDot b.data).reverse :=
    joinDot_inj_aux _ _
      (by simpa using splitDot_ne_nil a.data)
      (by simpa using splitDot_ne_nil b.data)
      (fun p hp => splitDot_no_dot a.data p (List.mem_reverse.1 hp))
      (fun p hp => splitDot_no_dot b.data p (List.mem_reverse.1 hp)) hd
  have hsplit : splitDot a.data = splitDot b.data := List.reverse_injective hrev
  have : a.data = b.data := by
    rw [← joinDot_splitDot a.data, ← joinDot_splitDot b.data, hsplit]
  exact String.ext this

/-! ## Lemmas: the sort comparator and canonical sortedness -/

lemma charListLe_total : ∀ a b : List Char,
    charListLe a b = true ∨ charListLe b a = true
  | [], _ => Or.inl rfl
  | _ :: _, [] => Or.inr rfl
  | a :: as, b :: bs => by
    by_cases hab : a = b
    · subst hab
      simpa [charListLe] using charListLe_total as bs
    · rcases lt_or_gt_of_ne hab with h | h
      · exact Or.inl (by simp [charListLe, hab, h])
      · exact Or.inr (by simp [charListLe, Ne.symm hab, h])

lemma charListLe_trans : ∀ a b c : List Char,
    charListLe a b = true → charListLe b c = true → charListLe a c = true
  | [], _, _, _, _ => rfl
  | a :: as, [], c, hab, _ => by simp [charListLe] at hab
  | a :: as, b :: bs, [], _, hbc => by simp [charListLe] at hbc
  | a :: as, b :: bs, c :: cs, hab, hbc => by
    by_cases h₁ : a = b <;> by_cases h₂ : b = c
    · subst h₁; subst h₂
      simp only [charListLe, if_pos rfl] at hab hbc ⊢
      exact charListLe_trans as bs cs hab hbc
    · subst h₁
      simpa [charListLe, h₂] using hbc
    · subst h₂
      simpa [charListLe, h₁] using hab
    · simp only [charListLe, if_neg h₁, decide_eq_true_eq] at hab
      simp only [charListLe, if_neg h₂, decide_eq_true_eq] at hbc
      have hac : a < c := lt_trans hab hbc
      simp [charListLe, ne_of_lt hac, hac]

lemma charListLe_antisymm : ∀ a b : List Char,
    charListLe a b = true → charListLe b a = true → a = b
  | [], [], _, _ => rfl
  | [], _ :: _, _, hba => by simp [charListLe] at hba
  | _ :: _, [], hab, _ => by simp [charListLe] at hab
  | a :: as, b :: bs, hab, hba => by
    by_cases h : a = b
    · subst h
      simp only [charListLe, if_pos rfl] at hab hba
      rw [charListLe_antisymm as bs hab hba]
    · simp only [charListLe, if_neg h, decide_eq_true_eq] at hab
      simp only [charListLe, if_neg (Ne.symm h), decide_eq_true_eq] at hba
      exact absurd hba (lt_asymm hab)

lemma keyLe_antisymm {a b : String} (h₁ : keyLe a b = true)
    (h₂ : keyLe b a = true) : a = b := by
  have := charListLe_antisymm _ _ h₁ h₂
  exact name_cmp_inj (String.ext this)

instance : IsTotal String keyLeP :=
  ⟨fun a b => by
    rcases charListLe_total (name_cmp a).data (name_cmp b).data with h | h
    · exact Or.inl h
    · exact Or.inr h⟩

instance : IsTrans String keyLeP :=
  ⟨fun a b c hab hbc => charListLe_trans _ _ _ hab hbc⟩

instance : IsAntisymm String keyLeP :=
  ⟨fun a b hab hba => keyLe_antisymm hab hba⟩

/-- `sortNames` is canonical: permuted inputs sort to the same list
(the comparator is antisymmetric because `name_cmp` is injective). -/
lemma sortNames_eq_of_perm {l₁ l₂ : List String} (h : l₁.Perm l₂) :
    sortNames l₁ = sortNames l₂ :=
  @List.eq_of_perm_of_sorted String keyLeP _ _ _
    (((List.perm_insertionSort keyLeP l₁).trans h).trans
      (List.perm_insertionSort keyLeP l₂).symm)
    (List.sorted_insertionSort keyLeP l₁)
    (List.sorted_insertionSort keyLeP l₂)

/-! ## Lemmas: the redundancy engine -/

/-- The acceptance condition of one engine iteration as a pure predicate,
with `u₀` the `unique_names` set at the start of the source's loop. -/
def acceptP (all_globs all_names allowed_names u₀ : List String)
    (n : String) : Bool :=
  !covered_by_glob all_globs n &&
    !(has_suffix all_names n || u₀.contains n) &&
    !(has_suffix allowed_names n || allowed_names.contains n)

/-- Condition counted by `ignored`. -/
def dupP (all_globs all_names u₀ : List String) (n : String) : Bool :=
  !covered_by_glob all_globs n && (has_suffix all_names n || u₀.contains n)

/-- Condition counted by `glob_ignored`. -/
def globP (all_globs : List String) (n : String) : Bool :=
  covered_by_glob all_globs n

/-- Condition counted by `allowed`. -/
def allowP (all_globs all_names allowed_names u₀ : List String)
    (n : String) : Bool :=
  !covered_by_glob all_globs n &&
    !(has_suffix all_names n || u₀.contains n) &&
    (has_suffix allowed_names n || allowed_names.contains n)

/-- Anything accepted by the engine loop was either already accepted or
is a member of the input that passed every rejection test. -/
lemma engine_fold_mem (g an al : List String) :
    ∀ (l : List String) (st : EngineState) (x : String),
      x ∈ (l.foldl (engineStep g an al) st).list_names →
      x ∈ st.list_names ∨
        (x ∈ l ∧ covered_by_glob g x = false ∧ has_suffix an x = false ∧
          has_suffix al x = false ∧ al.contains x = false)
  | [], _, _, h => Or.inl h
  | a :: t, st, x, h => by
    rw [List.foldl_cons] at h
    rcases engine_fold_mem g an al t _ x h with h' | h'
    · by_cases hg : covered_by_glob g a = true
      · rw [show engineStep g an al st a
            = { st with glob_ignored := st.glob_ignored + 1 } by
          unfold engineStep; rw [if_pos hg]] at h'
        exact Or.inl h'
      · by_cases hd : (has_suffix an a || st.unique_names.contains a) = true
        · rw [show engineStep g an al st a
              = { st with ignored := st.ignored + 1 } by
            unfold engineStep; rw [if_neg hg, if_pos hd]] at h'
          exact Or.inl h'
        · by_cases ha : (has_suffix al a || al.contains a) = true
          · rw [show engineStep g an al st a
                = { st with allowed := st.allowed + 1 } by
              unfold engineStep; rw [if_neg hg, if_neg hd, if_pos ha]] at h'
            exact Or.inl h'
          · rw [show engineStep g an al st a
                = { st with list_names := st.list_names ++ [a],
                            unique_names := setAdd st.unique_names a } by
              unfold engineStep; rw [if_neg hg, if_neg hd, if_neg ha]] at h'
            rcases List.mem_append.1 h' with h'' | h''
            · exact Or.inl h''
            · rw [List.mem_singleton] at h''
              subst h''
              rw [Bool.not_eq_true, Bool.or_eq_false_iff] at hd ha
              rw [Bool.not_eq_true] at hg
              exact Or.inr ⟨List.mem_cons_self _ _, hg, hd.1, ha.1, ha.2⟩
    · exact Or.inr ⟨List.mem_cons.2 (Or.inr h'.1), h'.2⟩

/-- Full characterisation of the engine loop on a duplicate-free input:
the accepted list is a filter by `acceptP`, the counters count the
matching rejection conditions, and the final `unique_names` set is the
start set plus the accepted names.  All four predicates are relative to
`u₀`, a reference set agreeing with the initial `unique_names` on the
input's elements. -/
lemma engine_fold_spec (g an al : List String) :
    ∀ (l : List String) (st : EngineState) (u₀ : List String),
      l.Nodup → (∀ n ∈ l, st.unique_names.contains n = u₀.contains n) →
      (l.foldl (engineStep g an al) st).list_names
          = st.list_names ++ l.filter (acceptP g an al u₀) ∧
      (l.foldl (engineStep g an al) st).ignored
          = st.ignored + l.countP (dupP g an u₀) ∧
      (l.foldl (engineStep g an al) st).glob_ignored
          = st.glob_ignored + l.countP (globP g) ∧
      (l.foldl (engineStep g an al) st).allowed
          = st.allowed + l.countP (allowP g an al u₀) ∧
      ∀ x, (l.foldl (engineStep g an al) st).unique_names.contains x
          = (st.unique_names.contains x ||
              (decide (x ∈ l) && acceptP g an al u₀ x))
  | [], st, u₀, _, _ => by simp
  | a :: t, st, u₀, hnd, hu => by
    have hne : ∀ n ∈ t, n ≠ a := by
      intro n hn hna
      exact (List.nodup_cons.1 hnd).1 (hna ▸ hn)
    have hua : st.unique_names.contains a = u₀.contains a :=
      hu a (List.mem_cons_self _ _)
    by_cases hg : covered_by_glob g a = true
    · have hstep : engineStep g an al st a
          = { st with glob_ignored := st.glob_ignored + 1 } := by
        unfold engineStep; rw [if_pos hg]
      have ih := engine_fold_spec g an al t
        { st with glob_ignored := st.glob_ignored + 1 } u₀
        (List.nodup_cons.1 hnd).2
        (fun n hn => hu n (List.mem_cons.2 (Or.inr hn)))
      have hPa : acceptP g an al u₀ a = false := by
        unfold acceptP; rw [hg]; rfl
      have hDa : dupP g an u₀ a = false := by
        unfold dupP; rw [hg]; rfl
      have hGa : globP g a = true := hg
      have hAa : allowP g an al u₀ a = false := by
        unfold allowP; rw [hg]; rfl
      rw [List.foldl_cons, hstep]
      refine ⟨?_, ?_, ?_, ?_, ?_⟩
      · rw [ih.1, List.filter_cons, hPa]; rfl
      · rw [ih.2.1, List.countP_cons, hDa]; simp
      · rw [ih.2.2.1, List.countP_cons, hGa]; simp; omega
      · rw [ih.2.2.2.1, List.countP_cons, hAa]; simp
      · intro x
        rw [ih.2.2.2.2 x]
        by_cases hxa : x = a
        · subst hxa; simp [hPa, List.mem_cons]
        · simp [List.mem_cons, hxa]
    · have hgf : covered_by_glob g a = false := by
        cases hcb : covered_by_glob g a
        · rfl
        · exact absurd hcb hg
      by_cases hd : (has_suffix an a || st.unique_names.contains a) = true
      · have hstep : engineStep g an al st a
            = { st with ignored := st.ignored + 1 } := by
          unfold engineStep; rw [if_neg hg, if_pos hd]
        have ih := engine_fold_spec g an al t
          { st with ignored := st.ignored + 1 } u₀
          (List.nodup_cons.1 hnd).2
          (fun n hn => hu n (List.mem_cons.2 (Or.inr hn)))
        have hd₀ : (has_suffix an a || u₀.contains a) = true := by
          rw [← hua]; exact hd
        have hPa : acceptP g an al u₀ a = false := by
          unfold acceptP; rw [hd₀]; simp
        have hDa : dupP g an u₀ a = true := by
          unfold dupP; rw [hgf, hd₀]; rfl
        have hGa : globP g a = false := hgf
        have hAa : allowP g an al u₀ a = false := by
          unfold allowP; rw [hd₀]; simp
        rw [List.foldl_cons, hstep]
        refine ⟨?_, ?_, ?_, ?_, ?_⟩
        · rw [ih.1, List.filter_cons, hPa]; rfl
        · rw [ih.2.1, List.countP_cons, hDa]; simp; omega
        · rw [ih.2.2.1, List.countP_cons, hGa]; simp
        · rw [ih.2.2.2.1, List.countP_cons, hAa]; simp
        · intro x
          rw [ih.2.2.2.2 x]
          by_cases hxa : x = a
          · subst hxa; simp [hPa, List.mem_cons]
          · simp [List.mem_cons, hxa]
      · have hdf : (has_suffix an a || st.unique_names.contains a) = false := by
          cases hcb : (has_suffix an a || st.unique_names.contains a)
          · rfl
          · exact absurd hcb hd
        have hd₀ : (has_suffix an a || u₀.contains a) = false := by
          rw [← hua]; exact hdf
        by_cases ha : (has_suffix al a || al.contains a) = true
        · have hstep : engineStep g an al st a
              = { st with allowed := st.allowed + 1 } := by
            unfold engineStep; rw [if_neg hg, if_neg hd, if_pos ha]
          have ih := engine_fold_spec g an al t
            { st with allowed := st.allowed + 1 } u₀
            (List.nodup_cons.1 hnd).2
            (fun n hn => hu n (List.mem_cons.2 (Or.inr hn)))
          have hPa : acceptP g an al u₀ a = false := by
            unfold acceptP; rw [ha]; simp
          have hDa : dupP g an u₀ a = false := by
            unfold dupP; rw [hd₀]; simp
          have hGa : globP g a = false := hgf
          have hAa : allowP g an al u₀ a = true := by
            unfold allowP; rw [hgf, hd₀, ha]; rfl
          rw [List.foldl_cons, hstep]
          refine ⟨?_, ?_, ?_, ?_, ?_⟩
          · rw [ih.1, List.filter_cons, hPa]; rfl
          · rw [ih.2.1, List.countP_cons, hDa]; simp
          · rw [ih.2.2.1, List.countP_cons, hGa]; simp
          · rw [ih.2.2.2.1, List.countP_cons, hAa]; simp; omega
          · intro x
            rw [ih.2.2.2.2 x]
            by_cases hxa : x = a
            · subst hxa; simp [hPa, List.mem_cons]
            · simp [List.mem_cons, hxa]
        · have haf : (has_suffix al a || al.contains a) = false := by
            cases hcb : (has_suffix al a || al.contains a)
            · rfl
            · exact absurd hcb ha
          have hstep : engineStep g an al st a
              = { st with list_names := st.list_names ++ [a],
                          unique_names := setAdd st.unique_names a } := by
            unfold engineStep; rw [if_neg hg, if_neg hd, if_neg ha]
          have hcontains : ∀ n ∈ t,
              (setAdd st.unique_names a).contains n = u₀.contains n := by
            intro n hn
            rw [contains_setAdd, hu n (List.mem_cons.2 (Or.inr hn))]
            simp [hne n hn]
          have ih := engine_fold_spec g an al t
            { st with list_names := st.list_names ++ [a],
                      unique_names := setAdd st.unique_names a } u₀
            (List.nodup_cons.1 hnd).2 hcontains
          have hPa : acceptP g an al u₀ a = true := by
            unfold acceptP; rw [hgf, hd₀, haf]; rfl
          have hDa : dupP g an u₀ a = false := by
            unfold dupP; rw [hd₀]; simp
          have hGa : globP g a = false := hgf
          have hAa : allowP g an al u₀ a = false := by
            unfold allowP; rw [haf]; simp
          rw [List.foldl_cons, hstep]
          refine ⟨?_, ?_, ?_, ?_, ?_⟩
          · rw [ih.1, List.filter_cons, hPa]
            simp
          · rw [ih.2.1, List.countP_cons, hDa]; simp
          · rw [ih.2.2.1, List.countP_cons, hGa]; simp
          · rw [ih.2.2.2.1, List.countP_cons, hAa]; simp
          · intro x
            rw [ih.2.2.2.2 x, contains_setAdd]
            by_cases hxa : x = a
            · subst hxa; simp [hPa, List.mem_cons]
            · simp [List.mem_cons, hxa]

/-! ## Lemmas: dotted suffixes -/

/-- The proper dotted suffixes checked by `has_suffix`: the joins of
`parts[1:], parts[2:], …, []`. -/
def dottedSuffixes : List (List Char) → List String
  | [] => []
  | _ :: parts => (⟨joinDot parts⟩ : String) :: dottedSuffixes parts

/-- `s` equals a proper dotted suffix of `d` (drop one or more leading
labels of `d`). -/
def dotted_suffix (s d : String) : Bool :=
  (dottedSuffixes (splitDot d.data)).contains s

lemma hasSuffixAux_false {names : List String} :
    ∀ {parts : List (List Char)}, hasSuffixAux names parts = false →
      ∀ s ∈ dottedSuffixes parts, names.contains s = false := by
  intro parts
  induction parts with
  | nil => intro _ s hs; simp [dottedSuffixes] at hs
  | cons p ps ih =>
    intro h s hs
    rw [hasSuffixAux, Bool.or_eq_false_iff] at h
    rcases List.mem_cons.1 hs with h' | h'
    · rw [h']; exact h.1
    · exact ih h.2 s h'

lemma has_suffix_false {names : List String} {d : String}
    (h : has_suffix names d = false) :
    ∀ s, dotted_suffix s d = true → names.contains s = false := by
  intro s hs
  exact hasSuffixAux_false h s ((contains_iff _ _).1 hs)

/-! ## Lemmas: the per-source results of `processBlocklists` -/

lemma processBlocklists_mem (g an al : List String) :
    ∀ (bls : List (String × List String)) (u : List String)
      (s : SectionResult), s ∈ (processBlocklists g an al bls u).1 →
      ∃ p ∈ bls, s.url = p.1 ∧ ∀ x ∈ s.list_names,
        x ∈ p.2 ∧ covered_by_glob g x = false ∧ has_suffix an x = false ∧
          has_suffix al x = false ∧ al.contains x = false
  | [], u, s, h => by simp [processBlocklists] at h
  | p :: rest, u, s, h => by
    rw [processBlocklists] at h
    rcases List.mem_cons.1 h with h' | h'
    · refine ⟨p, List.mem_cons_self _ _, by rw [h'], ?_⟩
      intro x hx
      rw [h'] at hx
      rcases engine_fold_mem g an al p.2 ⟨u, [], 0, 0, 0⟩ x hx with h'' | h''
      · simp at h''
      · exact h''
    · rcases processBlocklists_mem g an al rest _ s h' with ⟨q, hq, hrest⟩
      exact ⟨q, List.mem_cons.2 (Or.inr hq), hrest⟩

/-! ## Lemmas: the loading phase -/

lemma loadStep_inv (f : String → Except String (String × Bool)) (i : Bool)
    (st : LoadState) (line : String)
    (h : ∀ p ∈ st.blocklists, ∀ x ∈ p.2, x ∈ st.all_names) :
    ∀ p ∈ (loadStep f i st line).blocklists,
      ∀ x ∈ p.2, x ∈ (loadStep f i st line).all_names := by
  simp only [loadStep]
  split
  · exact h
  · split
    · split
      · intro p hp x hx
        rcases mem_dictInsert hp with h' | h'
        · exact mem_setUnion.2 (Or.inl (h p h' x hx))
        · rw [h'] at hx
          exact mem_setUnion.2 (Or.inr hx)
      · exact h
    · intro p hp x hx
      exact h p hp x hx

lemma loadPhase_inv (f : String → Except String (String × Bool)) (i : Bool) :
    ∀ (lines : List String) (st : LoadState),
      (∀ p ∈ st.blocklists, ∀ x ∈ p.2, x ∈ st.all_names) →
      ∀ p ∈ (lines.foldl (loadStep f i) st).blocklists,
        ∀ x ∈ p.2, x ∈ (lines.foldl (loadStep f i) st).all_names
  | [], st, h => h
  | line :: rest, st, h => by
    rw [List.foldl_cons]
    exact loadPhase_inv f i rest _ (loadStep_inv f i st line h)

/-! ## Lemmas: congruence of the engine under set-iteration reorderings -/

lemma any_congr_of_perm {l₁ l₂ : List String} (h : l₁.Perm l₂)
    (f : String → Bool) : l₁.any f = l₂.any f := by
  rw [Bool.eq_iff_iff, List.any_eq_true, List.any_eq_true]
  constructor <;> rintro ⟨x, hx, hfx⟩
  · exact ⟨x, h.mem_iff.1 hx, hfx⟩
  · exact ⟨x, h.mem_iff.2 hx, hfx⟩

lemma covered_by_glob_congr {g₁ g₂ : List String} (h : g₁.Perm g₂)
    (n : String) : covered_by_glob g₁ n = covered_by_glob g₂ n := by
  by_cases hc : g₁.contains n = true
  · rw [covered_by_glob, covered_by_glob, if_pos hc,
      if_pos (contains_eq_of_perm h n ▸ hc)]
  · rw [covered_by_glob, covered_by_glob, if_neg hc,
      if_neg (contains_eq_of_perm h n ▸ hc), any_congr_of_perm h]

lemma hasSuffixAux_congr {n₁ n₂ : List String}
    (h : ∀ x, n₁.contains x = n₂.contains x) :
    ∀ parts, hasSuffixAux n₁ parts = hasSuffixAux n₂ parts
  | [] => rfl
  | p :: parts => by
    rw [hasSuffixAux, hasSuffixAux, h, hasSuffixAux_congr h parts]

lemma has_suffix_congr {n₁ n₂ : List String}
    (h : ∀ x, n₁.contains x = n₂.contains x) (s : String) :
    has_suffix n₁ s = has_suffix n₂ s :=
  hasSuffixAux_congr h _

lemma acceptP_congr {g₁ g₂ an₁ an₂ al₁ al₂ u₁ u₂ : List String}
    (hg : g₁.Perm g₂) (han : ∀ x, an₁.contains x = an₂.contains x)
    (hal : ∀ x, al₁.contains x = al₂.contains x)
    (hu : ∀ x, u₁.contains x = u₂.contains x) (n : String) :
    acceptP g₁ an₁ al₁ u₁ n = acceptP g₂ an₂ al₂ u₂ n := by
  unfold acceptP
  rw [covered_by_glob_congr hg, has_suffix_congr han, has_suffix_congr hal,
    hu n, hal n]

lemma dupP_congr {g₁ g₂ an₁ an₂ u₁ u₂ : List String}
    (hg : g₁.Perm g₂) (han : ∀ x, an₁.contains x = an₂.contains x)
    (hu : ∀ x, u₁.contains x = u₂.contains x) (n : String) :
    dupP g₁ an₁ u₁ n = dupP g₂ an₂ u₂ n := by
  unfold dupP
  rw [covered_by_glob_congr hg, has_suffix_congr han, hu n]

lemma allowP_congr {g₁ g₂ an₁ an₂ al₁ al₂ u₁ u₂ : List String}
    (hg : g₁.Perm g₂) (han : ∀ x, an₁.contains x = an₂.contains x)
    (hal : ∀ x, al₁.contains x = al₂.contains x)
    (hu : ∀ x, u₁.contains x = u₂.contains x) (n : String) :
    allowP g₁ an₁ al₁ u₁ n = allowP g₂ an₂ al₂ u₂ n := by
  unfold allowP
  rw [covered_by_glob_congr hg, has_suffix_congr han, has_suffix_congr hal,
    hu n, hal n]

/-- Processing one source is insensitive to the iteration order of every
set involved: the sorted accepted list and all three counters agree, and
the resulting `unique_names` sets agree on membership. -/
lemma processSource_congr {g₁ g₂ an₁ an₂ al₁ al₂ u₁ u₂ l₁ l₂ : List String}
    (hg : g₁.Perm g₂) (han : ∀ x, an₁.contains x = an₂.contains x)
    (hal : ∀ x, al₁.contains x = al₂.contains x)
    (hu : ∀ x, u₁.contains x = u₂.contains x)
    (hl : l₁.Perm l₂) (hnd : l₁.Nodup) :
    sortNames (processSource g₁ an₁ al₁ u₁ l₁).list_names
        = sortNames (processSource g₂ an₂ al₂ u₂ l₂).list_names ∧
    (processSource g₁ an₁ al₁ u₁ l₁).ignored
        = (processSource g₂ an₂ al₂ u₂ l₂).ignored ∧
    (processSource g₁ an₁ al₁ u₁ l₁).glob_ignored
        = (processSource g₂ an₂ al₂ u₂ l₂).glob_ignored ∧
    (processSource g₁ an₁ al₁ u₁ l₁).allowed
        = (processSource g₂ an₂ al₂ u₂ l₂).allowed ∧
    ∀ x, (processSource g₁ an₁ al₁ u₁ l₁).unique_names.contains x
        = (processSource g₂ an₂ al₂ u₂ l₂).unique_names.contains x := by
  have hnd₂ : l₂.Nodup := hl.nodup hnd
  have spec₁ := engine_fold_spec g₁ an₁ al₁ l₁ ⟨u₁, [], 0, 0, 0⟩ u₁ hnd
    (fun n _ => rfl)
  have spec₂ := engine_fold_spec g₂ an₂ al₂ l₂ ⟨u₂, [], 0, 0, 0⟩ u₂ hnd₂
    (fun n _ => rfl)
  have hPcongr : ∀ n, acceptP g₁ an₁ al₁ u₁ n = acceptP g₂ an₂ al₂ u₂ n :=
    acceptP_congr hg han hal hu
  have hfilter : (l₁.filter (acceptP g₁ an₁ al₁ u₁)).Perm
      (l₂.filter (acceptP g₂ an₂ al₂ u₂)) := by
    rw [List.filter_congr (fun x _ => hPcongr x)]
    exact hl.filter _
  refine ⟨?_, ?_, ?_, ?_, ?_⟩
  · show sortNames (l₁.foldl (engineStep g₁ an₁ al₁) ⟨u₁, [], 0, 0, 0⟩).list_names
        = sortNames (l₂.foldl (engineStep g₂ an₂ al₂) ⟨u₂, [], 0, 0, 0⟩).list_names
    rw [spec₁.1, spec₂.1]
    exact sortNames_eq_of_perm (by simpa using hfilter)
  · show (l₁.foldl (engineStep g₁ an₁ al₁) ⟨u₁, [], 0, 0, 0⟩).ignored
        = (l₂.foldl (engineStep g₂ an₂ al₂) ⟨u₂, [], 0, 0, 0⟩).ignored
    rw [spec₁.2.1, spec₂.2.1]
    have : l₁.countP (dupP g₁ an₁ u₁) = l₂.countP (dupP g₂ an₂ u₂) := by
      rw [List.countP_congr (fun x _ => by rw [dupP_congr hg han hu x])]
      exact hl.countP_eq _
    rw [this]
  · show (l₁.foldl (engineStep g₁ an₁ al₁) ⟨u₁, [], 0, 0, 0⟩).glob_ignored
        = (l₂.foldl (engineStep g₂ an₂ al₂) ⟨u₂, [], 0, 0, 0⟩).glob_ignored
    rw [spec₁.2.2.1, spec₂.2.2.1]
    have : l₁.countP (globP g₁) = l₂.countP (globP g₂) := by
      rw [List.countP_congr (fun x _ => by
        unfold globP; rw [covered_by_glob_congr hg x])]
      exact hl.countP_eq _
    rw [this]
  · show (l₁.foldl (engineStep g₁ an₁ al₁) ⟨u₁, [], 0, 0, 0⟩).allowed
        = (l₂.foldl (engineStep g₂ an₂ al₂) ⟨u₂, [], 0, 0, 0⟩).allowed
    rw [spec₁.2.2.2.1, spec₂.2.2.2.1]
    have : l₁.countP (allowP g₁ an₁ al₁ u₁) = l₂.countP (allowP g₂ an₂ al₂ u₂) := by
      rw [List.countP_congr (fun x _ => by rw [allowP_congr hg han hal hu x])]
      exact hl.countP_eq _
    rw [this]
  · intro x
    show (l₁.foldl (engineStep g₁ an₁ al₁) ⟨u₁, [], 0, 0, 0⟩).unique_names.contains x
        = (l₂.foldl (engineStep g₂ an₂ al₂) ⟨u₂, [], 0, 0, 0⟩).unique_names.contains x
    rw [spec₁.2.2.2.2 x, spec₂.2.2.2.2 x]
    have hmem : decide (x ∈ l₁) = decide (x ∈ l₂) := by
      by_cases hx : x ∈ l₁
      · rw [decide_eq_true hx, decide_eq_true (hl.mem_iff.1 hx)]
      · rw [decide_eq_false hx, decide_eq_false (fun hx2 => hx (hl.mem_iff.2 hx2))]
    show (u₁.contains x || (decide (x ∈ l₁) && acceptP g₁ an₁ al₁ u₁ x))
        = (u₂.contains x || (decide (x ∈ l₂) && acceptP g₂ an₂ al₂ u₂ x))
    rw [hu x, hmem, hPcongr x]

/-- Whole-run section output is insensitive to set-iteration order. -/
lemma processBlocklists_congr {g₁ g₂ an₁ an₂ al₁ al₂ : List String}
    (hg : g₁.Perm g₂) (han : ∀ x, an₁.contains x = an₂.contains x)
    (hal : ∀ x, al₁.contains x = al₂.contains x) :
    ∀ {bls₁ bls₂ : List (String × List String)},
      List.Forall₂ (fun p q => p.1 = q.1 ∧ p.2.Perm q.2 ∧ p.2.Nodup) bls₁ bls₂ →
      ∀ {u₁ u₂ : List String}, (∀ x, u₁.contains x = u₂.contains x) →
      sectionsOutput (processBlocklists g₁ an₁ al₁ bls₁ u₁).1
        = sectionsOutput (processBlocklists g₂ an₂ al₂ bls₂ u₂).1 := by
  intro bls₁ bls₂ hrel
  induction hrel with
  | nil => intro u₁ u₂ _; rfl
  | cons hpq hrest ih =>
    intro u₁ u₂ hu
    next p q bl₁ bl₂ =>
    have hsec := processSource_congr hg han hal hu hpq.2.1 hpq.2.2
    rw [processBlocklists, processBlocklists]
    show renderSection _ ++ sectionsOutput _ = renderSection _ ++ sectionsOutput _
    rw [show renderSection ⟨p.1, (processSource g₁ an₁ al₁ u₁ p.2).list_names,
          (processSource g₁ an₁ al₁ u₁ p.2).ignored,
          (processSource g₁ an₁ al₁ u₁ p.2).glob_ignored,
          (processSource g₁ an₁ al₁ u₁ p.2).allowed⟩
        = renderSection ⟨q.1, (processSource g₂ an₂ al₂ u₂ q.2).list_names,
          (processSource g₂ an₂ al₂ u₂ q.2).ignored,
          (processSource g₂ an₂ al₂ u₂ q.2).glob_ignored,
          (processSource g₂ an₂ al₂ u₂ q.2).allowed⟩ by
      unfold renderSection
      rw [hpq.1, hsec.1, hsec.2.1, hsec.2.2.1, hsec.2.2.2.1]]
    rw [ih hsec.2.2.2.2]

/-! ## Lemmas: substring containment in the written output -/

lemma listPrefixB_append : ∀ (n b : List Char), listPrefixB n (n ++ b) = true
  | [], _ => rfl
  | c :: n, b => by simp [listPrefixB, listPrefixB_append n b]

lemma hasSub_of_append : ∀ (a n b : List Char), hasSub (a ++ (n ++ b)) n = true
  | [], n, b => by
    rw [List.nil_append, hasSub.eq_def, listPrefixB_append]
    simp
  | c :: a, n, b => by
    rw [List.cons_append, hasSub.eq_def]
    simp [hasSub_of_append a n b]

lemma strJoin_chunk (f : String → String) :
    ∀ (l : List String) (x : String), x ∈ l →
      ∃ a b, (strJoin (l.map f)).data = a ++ ((f x).data ++ b)
  | [], x, hx => absurd hx (List.not_mem_nil x)
  | y :: t, x, hx => by
    rcases List.mem_cons.1 hx with h | h
    · subst h
      refine ⟨[], (strJoin (t.map f)).data, ?_⟩
      show (f x ++ strJoin (t.map f)).data
          = [] ++ ((f x).data ++ (strJoin (t.map f)).data)
      simp [String.data_append]
    · rcases strJoin_chunk f t x h with ⟨a, b, hab⟩
      refine ⟨(f y).data ++ a, b, ?_⟩
      show (f y ++ strJoin (t.map f)).data
          = (f y).data ++ a ++ ((f x).data ++ b)
      simp [String.data_append, hab]

/-- Each time-restricted name's `print_restricted_name` chunk (the
`name<TAB>label` line, or the `# ignored: …` diagnostic when there is no
label) is literally contained in the artifact bytes. -/
lemma timeBlock_chunk (tn : List String) (trs : List (String × String))
    (rest : String) (n : String) (hn : n ∈ tn) :
    hasSub (timeBlockOutput tn trs ++ rest).data
      (print_restricted_name n trs).data = true := by
  obtain ⟨a, b, hab⟩ := strJoin_chunk (fun m => print_restricted_name m trs) tn n hn
  have hcond : ¬(tn.isEmpty = true) := by
    cases tn
    · exact absurd hn (List.not_mem_nil n)
    · simp
  rw [timeBlockOutput, if_neg hcond]
  have hdata : (("########## Time-based blocklist ##########\n\n" : String)
        ++ strJoin (tn.map fun m => print_restricted_name m trs) ++ rest).data
      = ("########## Time-based blocklist ##########\n\n" : String).data ++ a
        ++ ((print_restricted_name n trs).data ++ (b ++ rest.data)) := by
    simp [String.data_append, hab]
  rw [hdata]
  exact hasSub_of_append _ _ _

/-! ## Lemmas: projections of a completed run -/

lemma run_sections_eq (cfg : String)
    (fetch : String → Except String (String × Bool)) (al tr : String)
    (i : Bool) :
    (blocklists_from_config_file (some cfg) fetch al tr i).sections
      = (processBlocklists (loadPhase (pySplitlines cfg) fetch i).all_globs
          (loadPhase (pySplitlines cfg) fetch i).all_names
          (blocklists_from_config_file (some cfg) fetch al tr i).allowed_names
          (loadPhase (pySplitlines cfg) fetch i).blocklists []).1 := rfl

lemma run_output_eq (cfg : String)
    (fetch : String → Except String (String × Bool)) (al tr : String)
    (i : Bool) :
    (blocklists_from_config_file (some cfg) fetch al tr i).output
      = timeBlockOutput
          (blocklists_from_config_file (some cfg) fetch al tr i).time_names
          (blocklists_from_config_file (some cfg) fetch al tr i).time_restrictions
        ++ sectionsOutput
          (blocklists_from_config_file (some cfg) fetch al tr i).sections := rfl

/-! ## Lemmas: the untrusted parser's length guard -/

lemma untrustedStep_len (acc : ParseResult) (line : String)
    (h : ∀ m ∈ acc.names, 5 ≤ m.length) :
    ∀ m ∈ (untrustedStep acc line).names, 5 ≤ m.length := by
  intro m hm
  simp only [untrustedStep] at hm
  split at hm
  · exact h m hm
  · split at hm
    · exact h m hm
    · split at hm
      · rename_i nm _hmatch
        split at hm
        · rename_i hcond
          rcases mem_setAdd.1 hm with h' | h'
          · exact h m h'
          · subst h'
            have h4 : 4 < nm.length := by
              simp only [Bool.and_eq_true, decide_eq_true_eq] at hcond
              exact hcond.2
            exact h4
        · exact h m hm
      · split at hm
        · rename_i nm _hmatch
          split at hm
          · rename_i hcond
            rcases mem_setAdd.1 hm with h' | h'
            · exact h m h'
            · subst h'
              have h4 : 4 < nm.length := by
                simp only [Bool.and_eq_true, decide_eq_true_eq] at hcond
                exact hcond.2
              exact h4
          · exact h m hm
        · exact h m hm

lemma parse_list_untrusted_len :
    ∀ (lines : List String) (acc : ParseResult),
      (∀ m ∈ acc.names, 5 ≤ m.length) →
      ∀ m ∈ (lines.foldl untrustedStep acc).names, 5 ≤ m.length
  | [], _, h => h
  | line :: rest, acc, h => by
    rw [List.foldl_cons]
    exact parse_list_untrusted_len rest _ (untrustedStep_len acc line h)

/-! ## Lemmas: an empty-parse source is a no-op in the loading loop -/

lemma loadStep_noop (fetch : String → Except String (String × Bool))
    (i : Bool) (st : LoadState) (u c : String) (tr : Bool)
    (hs : pyStrip u = u)
    (hcm : ¬((pyStartswith u "#" || decide (u = "")) = true))
    (hf : fetch u = .ok (c, tr)) (hp : (parse_list c tr).names = []) :
    loadStep fetch i st u = st := by
  simp only [loadStep, hs]
  rw [if_neg hcm, hf]
  simp [hp]

/-! ## The claims

Each claim of the specification is settled by one theorem below;
concrete `fetch` functions stand in for the retrieval collaborator. -/

/-- Retrieval scenario for claim C1: the first URL fails, the second
loads an ordinary list. -/
def c1Fetch : String → Except String (String × Bool) := fun u =>
  if u = "http://good.example/list" then .ok ("ads.example.com", false)
  else .error "[http://bad.example/list] could not be loaded: timed out\n"

/-- C1: the claim (and the `-i` flag's own help text) say that without
ignore-retrieval-failure a load failure aborts the whole run.  The code's
handler merely logs and continues in both flag states: with the flag
unset the failing source is skipped, the run completes un-aborted,
produces the remaining section, and the artifact is identical to the
flag-set run. -/
theorem c1_retrieval_failure_never_fatal :
    (blocklists_from_config_file
        (some "http://bad.example/list\nhttp://good.example/list")
        c1Fetch "" "" false).aborted = false ∧
    (blocklists_from_config_file
        (some "http://bad.example/list\nhttp://good.example/list")
        c1Fetch "" "" false).output
      = "\n\n########## Blocklist from http://good.example/list ##########\n\nads.example.com\n" ∧
    (blocklists_from_config_file
        (some "http://bad.example/list\nhttp://good.example/list")
        c1Fetch "" "" false).output
      = (blocklists_from_config_file
          (some "http://bad.example/list\nhttp://good.example/list")
          c1Fetch "" "" true).output := by decide

/-- Retrieval scenario for claim C2: a trusted (file:) source holding the
line `*.cdn.example.com` and a remote source yielding the exact name
`static.cdn.example.com`. -/
def c2Fetch : String → Except String (String × Bool) := fun u =>
  if u = "file:trusted.txt" then .ok ("*.cdn.example.com", true)
  else if u = "http://b.example/list" then .ok ("static.cdn.example.com", false)
  else .error "unknown"

/-- C2 counterexample: `*.cdn.example.com` is not classified as a glob
(the glob set of the trusted parse is empty), and `static.cdn.example.com`
from the other source is accepted into its section — not rejected as
glob-redundant. -/
theorem c2_counterexample :
    (parse_trusted_list "*.cdn.example.com").globs.contains "*.cdn.example.com"
        = false ∧
    (blocklists_from_config_file
        (some "file:trusted.txt\nhttp://b.example/list") c2Fetch "" "" false).sections
      = [⟨"file:trusted.txt", ["*.cdn.example.com"], 0, 0, 0⟩,
         ⟨"http://b.example/list", ["static.cdn.example.com"], 0, 0, 0⟩] := by decide

/-- C2 amended: `is_glob` never treats a `*` at position 0 as a wildcard
marker, so the trusted line `*.cdn.example.com` is parsed as a literal
name (glob set empty, name set holding the line itself), and the exact
name `static.cdn.example.com` from any other source passes the glob and
suffix checks and is accepted. -/
theorem c2_amended :
    is_glob "*.cdn.example.com" = false ∧
    (parse_trusted_list "*.cdn.example.com").names = ["*.cdn.example.com"] ∧
    (parse_trusted_list "*.cdn.example.com").globs = [] ∧
    (blocklists_from_config_file
        (some "file:trusted.txt\nhttp://b.example/list") c2Fetch "" "" false).output
      = "\n\n########## Blocklist from file:trusted.txt ##########\n\n*.cdn.example.com\n"
        ++ "\n\n########## Blocklist from http://b.example/list ##########\n\nstatic.cdn.example.com\n" := by
  decide

/-- C3 counterexample: the time-restricted names form a Python set, and
the time-based block prints them in set-iteration order; two runs over
the same two-name set whose iterations enumerate it in opposite orders
produce different output bytes. -/
theorem c3_counterexample :
    (["a.example.com", "b.example.com"] : List String).Perm
        ["b.example.com", "a.example.com"] ∧
    runOutput [] [] [] ["a.example.com", "b.example.com"] [] []
      ≠ runOutput [] [] [] ["b.example.com", "a.example.com"] [] [] := by decide

/-- C3 amended: with the same sources in the same order (each source's
parsed name set, the glob/name unions and the allow set equal as sets)
the per-source sections — headers, counts and sorted line order — are
byte-identical across runs; the time-based block holds the same lines but
in set-iteration order, so it is only guaranteed equal as a multiset. -/
theorem c3_amended (bls₁ bls₂ : List (String × List String))
    (g₁ g₂ an₁ an₂ tn₁ tn₂ a₁ a₂ : List String)
    (trs : List (String × String))
    (hb : List.Forall₂ (fun p q => p.1 = q.1 ∧ p.2.Perm q.2 ∧ p.2.Nodup) bls₁ bls₂)
    (hg : g₁.Perm g₂) (han : an₁.Perm an₂) (htn : tn₁.Perm tn₂)
    (ha : a₁.Perm a₂) :
    (∃ S, runOutput bls₁ g₁ an₁ tn₁ trs a₁ = timeBlockOutput tn₁ trs ++ S ∧
          runOutput bls₂ g₂ an₂ tn₂ trs a₂ = timeBlockOutput tn₂ trs ++ S) ∧
    (tn₁.map fun n => print_restricted_name n trs).Perm
      (tn₂.map fun n => print_restricted_name n trs) := by
  have hal : ∀ x, (setUnion (setUnion [] tn₁) a₁).contains x
      = (setUnion (setUnion [] tn₂) a₂).contains x := fun x =>
    contains_congr (fun y => by
      simp only [mem_setUnion]
      rw [htn.mem_iff, ha.mem_iff]) x
  constructor
  · refine ⟨sectionsOutput (processBlocklists g₁ an₁
        (setUnion (setUnion [] tn₁) a₁) bls₁ []).1, rfl, ?_⟩
    show timeBlockOutput tn₂ trs ++ sectionsOutput (processBlocklists g₂ an₂
        (setUnion (setUnion [] tn₂) a₂) bls₂ []).1 = _
    rw [processBlocklists_congr hg (contains_eq_of_perm han) hal hb
      (fun _ => rfl)]
  · exact htn.map _

/-- Witness scenario for C3: one source whose two-name set is enumerated
in opposite orders by the two runs. -/
theorem c3_amended_witness :
    (∃ S, runOutput [("u", ["y.example.org", "x.example.org"])] []
            ["y.example.org", "x.example.org"] ["t.example.net"] [] []
          = timeBlockOutput ["t.example.net"] [] ++ S ∧
          runOutput [("u", ["x.example.org", "y.example.org"])] []
            ["x.example.org", "y.example.org"] ["t.example.net"] [] []
          = timeBlockOutput ["t.example.net"] [] ++ S) ∧
    ((["t.example.net"] : List String).map fun n =>
        print_restricted_name n []).Perm
      (["t.example.net"].map fun n => print_restricted_name n []) :=
  c3_amended [("u", ["y.example.org", "x.example.org"])]
    [("u", ["x.example.org", "y.example.org"])] [] []
    ["y.example.org", "x.example.org"] ["x.example.org", "y.example.org"]
    ["t.example.net"] ["t.example.net"] [] [] []
    (List.Forall₂.cons ⟨rfl, by decide, by decide⟩ List.Forall₂.nil)
    (by decide) (by decide) (by decide) (by decide)

/-- C4: for any two accepted domains of a completed run (in any sections,
distinct), neither equals a proper dotted suffix of the other: every
accepted name lies in `all_names`, and acceptance requires that no dotted
suffix of the name is in `all_names`. -/
theorem c4_no_suffix_redundancy (cfg : String)
    (fetch : String → Except String (String × Bool)) (al tr : String)
    (i : Bool) (s₁ s₂ : SectionResult) (d₁ d₂ : String)
    (hs₁ : s₁ ∈ (blocklists_from_config_file (some cfg) fetch al tr i).sections)
    (hs₂ : s₂ ∈ (blocklists_from_config_file (some cfg) fetch al tr i).sections)
    (hd₁ : d₁ ∈ s₁.list_names) (hd₂ : d₂ ∈ s₂.list_names)
    (_hne : d₁ ≠ d₂) :
    dotted_suffix d₁ d₂ = false ∧ dotted_suffix d₂ d₁ = false := by
  rw [run_sections_eq] at hs₁ hs₂
  obtain ⟨p₁, hp₁, _hurl₁, hall₁⟩ := processBlocklists_mem _ _ _ _ _ _ hs₁
  obtain ⟨p₂, hp₂, _hurl₂, hall₂⟩ := processBlocklists_mem _ _ _ _ _ _ hs₂
  have h₁ := hall₁ d₁ hd₁
  have h₂ := hall₂ d₂ hd₂
  have hinv := loadPhase_inv fetch i (pySplitlines cfg) ⟨[], [], [], ""⟩
    (fun p hp => absurd hp (List.not_mem_nil p))
  have hin₁ : d₁ ∈ (loadPhase (pySplitlines cfg) fetch i).all_names :=
    hinv p₁ hp₁ d₁ h₁.1
  have hin₂ : d₂ ∈ (loadPhase (pySplitlines cfg) fetch i).all_names :=
    hinv p₂ hp₂ d₂ h₂.1
  constructor
  · cases hds : dotted_suffix d₁ d₂
    · rfl
    · have hcf := has_suffix_false h₂.2.2.1 d₁ hds
      have hct := (contains_iff _ _).2 hin₁
      rw [hcf] at hct
      exact absurd hct Bool.false_ne_true
  · cases hds : dotted_suffix d₂ d₁
    · rfl
    · have hcf := has_suffix_false h₁.2.2.1 d₂ hds
      have hct := (contains_iff _ _).2 hin₂
      rw [hcf] at hct
      exact absurd hct Bool.false_ne_true

/-- Retrieval scenario for the C4 witness: one source carrying a name and
its subdomain (the spec's own example) and a second independent source. -/
def c4Fetch : String → Except String (String × Bool) := fun u =>
  if u = "http://a.example/l" then
    .ok ("ads.example.com\ntracker.ads.example.com", false)
  else if u = "http://b.example/l" then .ok ("other.example.org", false)
  else .error "unknown"

/-- Witness for C4 at a concrete run: `tracker.ads.example.com` is
rejected as suffix-redundant (section A counts one duplicate) and the two
surviving accepted names are suffix-free of each other. -/
theorem c4_witness :
    dotted_suffix "ads.example.com" "other.example.org" = false ∧
    dotted_suffix "other.example.org" "ads.example.com" = false :=
  c4_no_suffix_redundancy "http://a.example/l\nhttp://b.example/l" c4Fetch
    "" "" false
    ⟨"http://a.example/l", ["ads.example.com"], 1, 0, 0⟩
    ⟨"http://b.example/l", ["other.example.org"], 0, 0, 0⟩
    "ads.example.com" "other.example.org"
    (by decide) (by decide) (by decide) (by decide) (by decide)

/-- C5: a domain of the run's allowed set (the union of the
time-restricted names and the allow-list names) is never in any section's
accepted list: acceptance requires `allowed_names.contains name = false`. -/
theorem c5_allowed_never_accepted (cfg : String)
    (fetch : String → Except String (String × Bool)) (al tr : String)
    (i : Bool) (d : String) (s : SectionResult)
    (hd : d ∈ (blocklists_from_config_file (some cfg) fetch al tr i).allowed_names)
    (hs : s ∈ (blocklists_from_config_file (some cfg) fetch al tr i).sections) :
    d ∉ s.list_names := by
  intro hmem
  rw [run_sections_eq] at hs
  obtain ⟨p, hp, _hurl, hall⟩ := processBlocklists_mem _ _ _ _ _ _ hs
  have h := hall d hmem
  have hct := (contains_iff _ _).2 hd
  rw [h.2.2.2.2] at hct
  exact absurd hct Bool.false_ne_true

/-- Retrieval scenario for the C5 witness: an allow-listed name also
appears in the blocklist source. -/
def c5Fetch : String → Except String (String × Bool) := fun u =>
  if u = "file:allow.txt" then .ok ("safe.example.com", true)
  else if u = "http://a.example/l" then
    .ok ("safe.example.com\nads.example.com", false)
  else .error "unknown"

/-- Witness for C5 at a concrete run: the allow-listed
`safe.example.com` is absent from the section's accepted list. -/
theorem c5_witness :
    "safe.example.com"
      ∉ (⟨"http://a.example/l", ["ads.example.com"], 0, 0, 1⟩ :
          SectionResult).list_names :=
  c5_allowed_never_accepted "http://a.example/l" c5Fetch "allow.txt" "" false
    "safe.example.com" ⟨"http://a.example/l", ["ads.example.com"], 0, 0, 1⟩
    (by decide) (by decide)

/-- Retrieval scenario for the C6 counterexample: the first source's name
has its parent domain in the second, not-yet-processed source. -/
def c6Fetch : String → Except String (String × Bool) := fun u =>
  if u = "http://u1.example/a" then .ok ("ads.example.com", false)
  else if u = "http://u2.example/b" then .ok ("example.com", false)
  else .error "unknown"

/-- C6 counterexample: while processing the first source,
`ads.example.com` is rejected as a duplicate (ignored count 1) solely
because `example.com` belongs to the second source, which has not been
processed yet — the suffix check consults the union of all loaded
sources, not only state from sources processed earlier. -/
theorem c6_counterexample :
    (blocklists_from_config_file
        (some "http://u1.example/a\nhttp://u2.example/b") c6Fetch "" ""
        false).sections
      = [⟨"http://u1.example/a", [], 1, 0, 0⟩,
         ⟨"http://u2.example/b", ["example.com"], 0, 0, 0⟩] := by decide

/-- C6 amended: on a duplicate-free batch, a candidate is accepted
exactly when it passes `acceptP`, whose duplicate component consults the
already-accepted set `u₀` for exact matches but consults `all_names` —
the union of every loaded source's parsed names, current and future
sources included — for the dotted-suffix test; the three counters count
the matching rejection conditions. -/
theorem c6_amended (g an al u₀ names : List String) (hnd : names.Nodup) :
    (processSource g an al u₀ names).list_names
        = names.filter (acceptP g an al u₀) ∧
    (processSource g an al u₀ names).ignored
        = names.countP (dupP g an u₀) ∧
    (processSource g an al u₀ names).glob_ignored
        = names.countP (globP g) ∧
    (processSource g an al u₀ names).allowed
        = names.countP (allowP g an al u₀) := by
  have h := engine_fold_spec g an al names ⟨u₀, [], 0, 0, 0⟩ u₀ hnd
    (fun n _ => rfl)
  exact ⟨by simpa using h.1, by simpa using h.2.1, by simpa using h.2.2.1,
    by simpa using h.2.2.2.1⟩

/-- Witness for C6 at a concrete batch: the engine loop agrees with the
`acceptP`/`dupP` characterisation (here the single candidate is rejected
by a name of a source that has not been processed). -/
theorem c6_witness :
    (processSource [] ["example.com", "ads.example.com"] [] []
        ["ads.example.com"]).list_names
      = ["ads.example.com"].filter
          (acceptP [] ["example.com", "ads.example.com"] [] []) ∧
    (processSource [] ["example.com", "ads.example.com"] [] []
        ["ads.example.com"]).ignored
      = ["ads.example.com"].countP (dupP [] ["example.com", "ads.example.com"] []) ∧
    (processSource [] ["example.com", "ads.example.com"] [] []
        ["ads.example.com"]).glob_ignored
      = ["ads.example.com"].countP (globP []) ∧
    (processSource [] ["example.com", "ads.example.com"] [] []
        ["ads.example.com"]).allowed
      = ["ads.example.com"].countP
          (allowP [] ["example.com", "ads.example.com"] [] []) :=
  c6_amended [] ["example.com", "ads.example.com"] [] [] ["ads.example.com"]
    (by decide)

/-- Retrieval scenario for C7: a time-restricted list holding one name
without a restriction label. -/
def c7Fetch : String → Except String (String × Bool) := fun u =>
  if u = "file:tr.txt" then .ok ("unlabeled.example.com", true)
  else .error "unknown"

/-- C7 counterexample: the diagnostic for a label-less time-restricted
name is written into the generated artifact itself (it is the `# ignored:`
comment inside the time-based block) while the operator-facing error
stream receives nothing — not to a channel distinct from the artifact. -/
theorem c7_counterexample :
    (blocklists_from_config_file (some "") c7Fetch "" "tr.txt" false).output
      = "########## Time-based blocklist ##########\n\n"
        ++ "# ignored: [unlabeled.example.com] was in the time-restricted list, "
        ++ "but without a time restriction label\n" ∧
    (blocklists_from_config_file (some "") c7Fetch "" "tr.txt" false).errLog
      = "" := by decide

/-- C7 amended: every parsed time-restricted name joins the allowed set
whether or not it carries a label, and its `print_restricted_name` chunk
— the `name<TAB>label` line, or, for a label-less name, the `# ignored:`
diagnostic comment — is written into the generated artifact itself. -/
theorem c7_amended (cfg : String)
    (fetch : String → Except String (String × Bool)) (al tr : String)
    (i : Bool) (n : String)
    (hn : n ∈ (blocklists_from_config_file (some cfg) fetch al tr i).time_names) :
    n ∈ (blocklists_from_config_file (some cfg) fetch al tr i).allowed_names ∧
    hasSub (blocklists_from_config_file (some cfg) fetch al tr i).output.data
      (print_restricted_name n
        (blocklists_from_config_file (some cfg) fetch al tr i).time_restrictions).data
      = true := by
  constructor
  · obtain ⟨a, ha⟩ : ∃ a,
        (blocklists_from_config_file (some cfg) fetch al tr i).allowed_names
          = setUnion (setUnion []
              (blocklists_from_config_file (some cfg) fetch al tr i).time_names) a :=
      ⟨_, rfl⟩
    rw [ha]
    exact mem_setUnion.2 (Or.inl (mem_setUnion.2 (Or.inr hn)))
  · rw [run_output_eq]
    exact timeBlock_chunk _ _ _ n hn

/-- Witness for C7 at a concrete run: the label-less name is allowed and
its diagnostic is contained in the artifact bytes. -/
theorem c7_witness :
    "unlabeled.example.com"
      ∈ (blocklists_from_config_file (some "") c7Fetch "" "tr.txt"
          false).allowed_names ∧
    hasSub (blocklists_from_config_file (some "") c7Fetch "" "tr.txt"
        false).output.data
      (print_restricted_name "unlabeled.example.com"
        (blocklists_from_config_file (some "") c7Fetch "" "tr.txt"
          false).time_restrictions).data = true :=
  c7_amended "" c7Fetch "" "tr.txt" false "unlabeled.example.com" (by decide)

/-- Retrieval scenario for the C8 counterexample: the blocklist source
loads, the allow-list file does not exist. -/
def c8Fetch : String → Except String (String × Bool) := fun u =>
  if u = "http://src.example/l" then .ok ("ads.example.com", false)
  else .error ("[" ++ u ++ "] could not be loaded: No such file or directory\n")

/-- C8 counterexample: with an unreadable allow-list file the run does
not abort — the error is logged to the operator stream and the full
artifact is still produced (without allow-list filtering). -/
theorem c8_counterexample :
    (blocklists_from_config_file (some "http://src.example/l") c8Fetch
        "missing-allowlist.txt" "" false).aborted = false ∧
    (blocklists_from_config_file (some "http://src.example/l") c8Fetch
        "missing-allowlist.txt" "" false).output
      = "\n\n########## Blocklist from http://src.example/l ##########\n\nads.example.com\n" ∧
    (blocklists_from_config_file (some "http://src.example/l") c8Fetch
        "missing-allowlist.txt" "" false).errLog
      = "Error processing allowlist: [file:missing-allowlist.txt] could not be loaded: No such file or directory\n\n" := by
  decide

/-- C8 amended: a missing or unreadable configuration file is fatal — the
run aborts with nothing written — while once the configuration is
readable the run never aborts, whatever fails afterwards (an unreadable
allow-list is only logged). -/
theorem c8_amended (fetch : String → Except String (String × Bool))
    (al tr : String) (i : Bool) (cfg : String) :
    (blocklists_from_config_file none fetch al tr i).aborted = true ∧
    (blocklists_from_config_file none fetch al tr i).output = "" ∧
    (blocklists_from_config_file (some cfg) fetch al tr i).aborted = false :=
  ⟨rfl, rfl, rfl⟩

/-- C9: every name returned by the untrusted-list parser has at least
five characters — both insertion sites are guarded by `len(name) > 4`. -/
theorem c9_untrusted_min_length (content : String) (n : String)
    (hn : n ∈ (parse_list content false).names) : 5 ≤ n.length := by
  have heq : parse_list content false
      = (pySplitlines content).foldl untrustedStep ⟨[], [], []⟩ := rfl
  rw [heq] at hn
  exact parse_list_untrusted_len (pySplitlines content) ⟨[], [], []⟩
    (fun m hm => absurd hm (List.not_mem_nil m)) n hn

/-- Witness for C9 at a concrete untrusted source. -/
theorem c9_witness :
    "ads.example.com" ∈ (parse_list "b.co\nads.example.com" false).names ∧
    5 ≤ ("ads.example.com" : String).length :=
  ⟨by decide, c9_untrusted_min_length "b.co\nads.example.com"
    "ads.example.com" (by decide)⟩

/-- C10: a config line whose source loads but parses to an empty name set
changes nothing: deleting that line from the config yields a bytewise
identical run (same artifact, same log, same sections and global sets). -/
theorem c10_empty_source_contributes_nothing
    (fetch : String → Except String (String × Bool)) (al trl : String)
    (i : Bool) (cfg₁ cfg₂ u c : String) (tr : Bool) (l₁ l₂ : List String)
    (h₁ : pySplitlines cfg₁ = l₁ ++ u :: l₂)
    (h₂ : pySplitlines cfg₂ = l₁ ++ l₂)
    (hs : pyStrip u = u)
    (hcm : ¬((pyStartswith u "#" || decide (u = "")) = true))
    (hf : fetch u = .ok (c, tr)) (hp : (parse_list c tr).names = []) :
    blocklists_from_config_file (some cfg₁) fetch al trl i
      = blocklists_from_config_file (some cfg₂) fetch al trl i := by
  have hLP : loadPhase (pySplitlines cfg₁) fetch i
      = loadPhase (pySplitlines cfg₂) fetch i := by
    rw [h₁, h₂]
    unfold loadPhase
    rw [List.foldl_append, List.foldl_append, List.foldl_cons,
      loadStep_noop fetch i _ u c tr hs hcm hf hp]
  simp only [blocklists_from_config_file]
  rw [hLP]

/-- Retrieval scenario for the C10 witness: the second source holds only
a comment line, so its parse is empty. -/
def c10Fetch : String → Except String (String × Bool) := fun u =>
  if u = "http://u1.example/a" then .ok ("ads.example.com", false)
  else if u = "http://empty.example/e" then .ok ("# only comments\n", false)
  else .error "unknown"

/-- Witness for C10 at a concrete run: dropping the empty-parse source
from the config leaves the whole run unchanged. -/
theorem c10_witness :
    blocklists_from_config_file
        (some "http://u1.example/a\nhttp://empty.example/e") c10Fetch ""
        "" false
      = blocklists_from_config_file (some "http://u1.example/a") c10Fetch ""
        "" false :=
  c10_empty_source_contributes_nothing c10Fetch "" "" false
    "http://u1.example/a\nhttp://empty.example/e" "http://u1.example/a"
    "http://empty.example/e" "# only comments\n" false
    ["http://u1.example/a"] [] (by decide) (by decide) (by decide)
    (by decide) rfl (by decide)

end GDB
